import Mathlib

/-!
# Verification of the Remove One game core

A shallow embedding of `remove_one/games/remove_one/data_structures.py`,
`remove_one/games/remove_one/game.py` and `remove_one/core/game_engine.py`,
together with theorems settling the specification claims.

Conventions of the embedding:
* Python tuples of cards become `List Int`; Python dicts keyed by player id
  become insertion-ordered association lists `List (Nat × _)` (Python dicts
  preserve insertion order and keep a key's position on update).
* `Optional` fields become `Option`; a Python `None` stored in a transient
  map is represented by an `Option` value.
* A function that can raise in Python (IndexError, KeyError, StopIteration,
  or storing a non-card value where a card is required) returns `Option`,
  with `none` standing for the raised exception / corrupted state.
* Python `min(xs, key=k)` / `max(xs, key=k)` return the first element
  attaining the optimum; the fold-based `argminBy` / `argmaxBy` below mirror
  that tie-breaking exactly.
* Leading underscores of private Python methods are dropped
  (`_resolve_round` becomes `resolve_round`, and so on).
-/

namespace RemoveOne

abbrev Card := Int

/-- `RemoveOnePlayer` dataclass (data_structures.py lines 11-19). -/
structure RemoveOnePlayer where
  player_id : Nat
  hand : List Card
  holding_box : List Card
  score : Int := 0
  victory_tokens : Int := 0
  eliminated : Bool := false
  last_victory_round : Int := 0
deriving Repr, DecidableEq

/-- `RemoveOneAction` dataclass (data_structures.py lines 22-26). -/
structure RemoveOneAction where
  action_type : String
  cards : Option (Card × Card) := none
  final_card : Option Card := none
deriving Repr, DecidableEq

/-- Python `d.get(k)` / `d[k]` lookup on an association list. -/
def dictFind? {α : Type} (d : List (Nat × α)) (k : Nat) : Option α :=
  (d.find? (fun kv => kv.1 == k)).map Prod.snd

/-- Python `k in d` on an association list. -/
def dictContains {α : Type} (d : List (Nat × α)) (k : Nat) : Bool :=
  (dictFind? d k).isSome

/-- Python `d[k] = v`: update in place if the key exists (keeping its
position, as Python dicts do), otherwise append at the end. -/
def dictInsert {α : Type} (d : List (Nat × α)) (k : Nat) (v : α) : List (Nat × α) :=
  if d.any (fun kv => kv.1 == k) then
    d.map (fun kv => if kv.1 == k then (k, v) else kv)
  else
    d ++ [(k, v)]

/-- Python `list.remove(c)` guarded by `if c in l` (removes the first
occurrence, and is the identity when `c` is absent, matching the guarded
use in the relocation loops). -/
def removeIfPresent (l : List Card) (c : Card) : List Card :=
  match l with
  | [] => []
  | x :: xs => if x == c then xs else x :: removeIfPresent xs c

/-- One step of insertion sort. -/
def insertSorted (x : Card) : List Card → List Card
  | [] => [x]
  | y :: ys => if x ≤ y then x :: y :: ys else y :: insertSorted x ys

/-- Python `sorted` on a list of card values (ascending). -/
def sortCards : List Card → List Card
  | [] => []
  | x :: xs => insertSorted x (sortCards xs)

/-- Python `next(card for card in (r1, r2) if card != final_choice)`:
first revealed card different from the (possibly `None`) final choice;
`none` is the `StopIteration` case. -/
def firstDifferent (r1 r2 : Card) (f : Option Card) : Option Card :=
  if some r1 ≠ f then some r1 else if some r2 ≠ f then some r2 else none

/-- Minimum of a list of integers (`min` over the candidate card values). -/
def listMin : List Card → Option Card
  | [] => none
  | x :: xs =>
    match listMin xs with
    | none => some x
    | some m => some (min x m)

/-- Turns a list of `Option` values into a list of values when all are
present; `none` marks the appearance of a stored Python `None` where an
int is required (comparison/arithmetic on it raises). -/
def liftSome : List (Option Card) → Option (List Card)
  | [] => some []
  | none :: _ => none
  | some c :: rest =>
    match liftSome rest with
    | none => none
    | some cs => some (c :: cs)

/-- `RemoveOneState` dataclass (data_structures.py lines 44-52); the unused
`config` dict is omitted. -/
structure RemoveOneState where
  players : List RemoveOnePlayer
  round_num : Int
  phase : String
  revealed_cards : List (Nat × Option (Card × Card)) := []
  final_choices : List (Nat × Option Card) := []
  advancement_rounds : List Int := [3, 6, 9, 12, 18]
  discard_pile : List Card := []
deriving Repr, DecidableEq

/-- `len([p.player_id for p in self.players if not p.eliminated])`. -/
def activeCount (s : RemoveOneState) : Nat :=
  (s.players.filter (fun p => !p.eliminated)).length

/-- `RemoveOneAction.is_valid` (data_structures.py lines 28-41).
`none` is an `IndexError` on `state.players[player_id]`. -/
def RemoveOneAction.is_valid (a : RemoveOneAction) (s : RemoveOneState)
    (player_id : Nat) : Option Bool :=
  match s.players.get? player_id with
  | none => none
  | some pl =>
    if pl.eliminated then some false
    else if a.action_type == "select_cards" && s.phase == "select" then
      match a.cards with
      | none => some false
      | some (c1, c2) => some (pl.hand.contains c1 && pl.hand.contains c2)
    else if a.action_type == "choose_final" && s.phase == "choose" then
      match dictFind? s.revealed_cards player_id with
      | none => some false
      | some none => none
      | some (some (r1, r2)) =>
        match a.final_card with
        | none => some false
        | some c => some (c == r1 || c == r2)
    else some false

/-- Python tuple comparison `<` on the three-component sort keys. -/
def lexLt : Int × Int × Int → Int × Int × Int → Bool
  | (a1, a2, a3), (b1, b2, b3) =>
    a1 < b1 || (a1 == b1 && (a2 < b2 || (a2 == b2 && a3 < b3)))

/-- Python `min(players, key=k)`: first element attaining the minimal key. -/
def argminBy (k : RemoveOnePlayer → Int × Int × Int) :
    List RemoveOnePlayer → Option RemoveOnePlayer
  | [] => none
  | p :: ps => some (ps.foldl (fun best q => if lexLt (k q) (k best) then q else best) p)

/-- Python `max(players, key=k)`: first element attaining the maximal key. -/
def argmaxBy (k : RemoveOnePlayer → Int × Int × Int) :
    List RemoveOnePlayer → Option RemoveOnePlayer
  | [] => none
  | p :: ps => some (ps.foldl (fun best q => if lexLt (k best) (k q) then q else best) p)

/-- The elimination key `(p.score, p.victory_tokens, p.last_victory_round)`. -/
def elimKeyMax (p : RemoveOnePlayer) : Int × Int × Int :=
  (p.score, p.victory_tokens, p.last_victory_round)

/-- The elimination key `(p.score, p.victory_tokens, -p.last_victory_round)`. -/
def elimKeyMin (p : RemoveOnePlayer) : Int × Int × Int :=
  (p.score, p.victory_tokens, -p.last_victory_round)

/-- Python `l[i] = a` (raises `IndexError` when out of range). -/
def listSet? {α : Type} (l : List α) (i : Nat) (a : α) : Option (List α) :=
  if i < l.length then some (l.set i a) else none

/-- `RemoveOneState._handle_elimination` (data_structures.py lines 224-241).
Note the hardcoded `state.round_num == 18` test. -/
def handle_elimination (state : RemoveOneState) : Option RemoveOneState :=
  let active_players := state.players.filter (fun p => !p.eliminated)
  if state.round_num == 18 then
    if active_players.length == 3 then
      match argminBy elimKeyMin active_players with
      | none => none
      | some lowest_scorer =>
        match listSet? state.players lowest_scorer.player_id
            { lowest_scorer with eliminated := true } with
        | none => none
        | some new_players => some { state with players := new_players }
    else some state
  else
    if active_players.length > 1 then
      match argmaxBy elimKeyMax active_players with
      | none => none
      | some highest_scorer =>
        match listSet? state.players highest_scorer.player_id
            { highest_scorer with eliminated := true } with
        | none => none
        | some new_players => some { state with players := new_players }
    else some state

/-- `RemoveOneState._advance_to_next_round` (lines 243-245). -/
def advance_to_next_round (state : RemoveOneState) : RemoveOneState :=
  { state with round_num := state.round_num + 1 }

/-- The per-player body of the relocation loop in
`_award_points_and_advance` (lines 145-172). `pid` is the enumeration
index. `none` marks a `KeyError` on `final_choices[player_id]`, a
`StopIteration` from `next`, or a stored `None` flowing into the holding
box / the card iteration. -/
def award_relocate_player (revealed_cards : List (Nat × Option (Card × Card)))
    (final_choices : List (Nat × Option Card)) (winner_id : Nat)
    (pid : Nat) (player : RemoveOnePlayer) : Option RemoveOnePlayer :=
  if player.eliminated then some player
  else
    let new_hand0 := player.hand ++ player.holding_box
    match dictFind? revealed_cards pid with
    | none => some { player with hand := sortCards new_hand0, holding_box := [] }
    | some none => none
    | some (some (r1, r2)) =>
      match dictFind? final_choices pid with
      | none => none
      | some fc =>
        if pid == winner_id then
          match firstDifferent r1 r2 fc with
          | none => none
          | some unused_card =>
            let nh := removeIfPresent (removeIfPresent new_hand0 r1) r2
            some { player with hand := sortCards nh, holding_box := [unused_card] }
        else
          match fc with
          | none => none
          | some f =>
            match firstDifferent r1 r2 (some f) with
            | none => none
            | some unused_card =>
              let nh := removeIfPresent (removeIfPresent (new_hand0 ++ [unused_card]) r1) r2
              some { player with hand := sortCards nh, holding_box := [f] }

/-- The per-player body of the relocation loop in
`_advance_round_no_winner` (lines 189-215): every participant is treated
like a non-winner. -/
def no_winner_relocate_player (revealed_cards : List (Nat × Option (Card × Card)))
    (final_choices : List (Nat × Option Card))
    (pid : Nat) (player : RemoveOnePlayer) : Option RemoveOnePlayer :=
  if player.eliminated then some player
  else
    let new_hand0 := player.hand ++ player.holding_box
    match dictFind? revealed_cards pid with
    | none => some { player with hand := sortCards new_hand0, holding_box := [] }
    | some none => none
    | some (some (r1, r2)) =>
      match dictFind? final_choices pid with
      | none => none
      | some none => none
      | some (some f) =>
        match firstDifferent r1 r2 (some f) with
        | none => none
        | some unused_card =>
          let nh := removeIfPresent (removeIfPresent (new_hand0 ++ [unused_card]) r1) r2
          some { player with hand := sortCards nh, holding_box := [f] }

/-- Python `for player_id, player in enumerate(new_players)` applying a
fallible per-player transformation. -/
def mapIdxOption {α β : Type} (f : Nat → α → Option β) : Nat → List α → Option (List β)
  | _, [] => some []
  | i, a :: rest =>
    match f i a with
    | none => none
    | some b =>
      match mapIdxOption f (i + 1) rest with
      | none => none
      | some bs => some (b :: bs)

/-- `RemoveOneState._award_points_and_advance` (lines 133-184). -/
def award_points_and_advance (s : RemoveOneState) (winner_id : Nat)
    (winning_card : Card) (final_choices : List (Nat × Option Card)) :
    Option RemoveOneState :=
  match s.players.get? winner_id with
  | none => none
  | some winner =>
    let winner2 := { winner with
      score := winner.score + winning_card,
      victory_tokens := winner.victory_tokens + 1,
      last_victory_round := s.round_num }
    let players1 := s.players.set winner_id winner2
    match mapIdxOption (award_relocate_player s.revealed_cards final_choices winner_id) 0 players1 with
    | none => none
    | some players2 =>
      let new_state := { s with
        players := players2, phase := "select",
        revealed_cards := [], final_choices := [] }
      match (if s.advancement_rounds.contains s.round_num
             then handle_elimination new_state else some new_state) with
      | none => none
      | some st => some (advance_to_next_round st)

/-- `RemoveOneState._advance_round_no_winner` (lines 186-222). There is no
elimination check on this path. -/
def advance_round_no_winner (s : RemoveOneState)
    (final_choices : List (Nat × Option Card)) : Option RemoveOneState :=
  match mapIdxOption (no_winner_relocate_player s.revealed_cards final_choices) 0 s.players with
  | none => none
  | some players2 =>
    some (advance_to_next_round { s with
      players := players2, phase := "select",
      revealed_cards := [], final_choices := [] })

/-- `card_counts[card]` from `_resolve_round` (lines 120-122): how many
players submitted the value `c`. -/
def card_count (final_choices : List (Nat × Option Card)) (c : Option Card) : Nat :=
  ((final_choices.map Prod.snd).filter (fun v => v == c)).length

/-- `unique_cards` from `_resolve_round` (line 124): the submitted values
with count exactly 1 (the candidate winning cards). -/
def unique_cards (final_choices : List (Nat × Option Card)) : List (Option Card) :=
  (final_choices.map Prod.snd).dedup.filter (fun c => card_count final_choices c == 1)

/-- The winner computation of `_resolve_round` (lines 126-128): the
minimum-valued candidate and its submitter, when a candidate exists.
`none` covers: no candidate, a stored Python `None` among the candidates
(comparison raises / corrupts downstream), or no submitter found. -/
def resolveWinner (final_choices : List (Nat × Option Card)) : Option (Nat × Card) :=
  match liftSome (unique_cards final_choices) with
  | none => none
  | some cands =>
    match listMin cands with
    | none => none
    | some winning_card =>
      match final_choices.find? (fun pc => pc.2 == some winning_card) with
      | none => none
      | some (winner_id, _) => some (winner_id, winning_card)

/-- `RemoveOneState._resolve_round` (lines 118-131). -/
def resolve_round (s : RemoveOneState)
    (final_choices : List (Nat × Option Card)) : Option RemoveOneState :=
  if (unique_cards final_choices).isEmpty then
    advance_round_no_winner s final_choices
  else
    match resolveWinner final_choices with
    | none => none
    | some (winner_id, winning_card) =>
      award_points_and_advance s winner_id winning_card final_choices

/-- `RemoveOneState.apply_action` (lines 84-109). -/
def RemoveOneState.apply_action (s : RemoveOneState) (action : RemoveOneAction)
    (player_id : Nat) : Option RemoveOneState :=
  if action.action_type == "select_cards" then
    let new_revealed := dictInsert s.revealed_cards player_id action.cards
    if new_revealed.length == activeCount s then
      some { s with revealed_cards := new_revealed, phase := "choose" }
    else
      some { s with revealed_cards := new_revealed }
  else if action.action_type == "choose_final" then
    let new_choices := dictInsert s.final_choices player_id action.final_card
    if new_choices.length == activeCount s then
      resolve_round s new_choices
    else
      some { s with final_choices := new_choices }
  else some s

/-- `RemoveOneState.apply_simultaneous_actions` (lines 111-116). -/
def RemoveOneState.apply_simultaneous_actions (s : RemoveOneState)
    (actions : List (Nat × RemoveOneAction)) : Option RemoveOneState :=
  actions.foldl
    (fun acc pa =>
      match acc with
      | none => none
      | some st => st.apply_action pa.2 pa.1)
    (some s)

/-- `RemoveOneState.is_terminal` (lines 247-251). Note the hardcoded
`round_num > 18`. -/
def RemoveOneState.is_terminal (s : RemoveOneState) : Bool :=
  activeCount s ≤ 1 || (decide (18 < s.round_num) && activeCount s ≤ 2)

/-- `RemoveOneState.is_player_eliminated` (lines 295-297); `none` is the
`IndexError` on an out-of-range player id. -/
def RemoveOneState.is_player_eliminated (s : RemoveOneState) (player_id : Nat) :
    Option Bool :=
  (s.players.get? player_id).map (fun p => p.eliminated)

/-- The initial state built by `RemoveOneGame.__init__` (game.py lines
9-29) with the default advancement rounds. -/
def initialState (num_players hand_size : Nat) : RemoveOneState :=
  { players := (List.range num_players).map (fun i =>
      { player_id := i,
        hand := (List.range hand_size).map (fun k => (k : Int) + 1),
        holding_box := [] }),
    round_num := 1,
    phase := "select",
    revealed_cards := [],
    final_choices := [],
    advancement_rounds := [3, 6, 9, 12, 18],
    discard_pile := [] }

/-- Total card instances in hands, holding boxes and the discard pile. -/
def cardTotal (s : RemoveOneState) : Nat :=
  (s.players.map (fun p => p.hand.length + p.holding_box.length)).sum
    + s.discard_pile.length

/-- Card instances recorded in the revealed-cards map (two per entry
holding a pair). -/
def revealedCount (s : RemoveOneState) : Nat :=
  (s.revealed_cards.map (fun kv => match kv.2 with
    | some _ => 2
    | none => 0)).sum

/-- Card instances recorded in the final-choice map (one per entry holding
a card). -/
def finalChoiceCount (s : RemoveOneState) : Nat :=
  (s.final_choices.map (fun kv => match kv.2 with
    | some _ => 1
    | none => 0)).sum

/-- The full sum of the spec's card-conservation formula. -/
def specCardSum (s : RemoveOneState) : Nat :=
  cardTotal s + revealedCount s + finalChoiceCount s

/-! ## Engine (game_engine.py) -/

/-- Outcome of one engine step: a new state, a `ValueError("Illegal action
by ...")` naming the offending actor (run_game line 51-52), or some other
uncaught exception. -/
inductive EngineOutcome where
  | applied (s : RemoveOneState)
  | illegalAction (actor : Nat)
  | crashed
deriving Repr, DecidableEq

/-- The sequential branch of `GameEngine.run_game` (lines 44-56): validate
the returned action against the pre-apply state, abort naming the actor on
failure, otherwise apply. -/
def engineSequentialStep (s : RemoveOneState) (current_player : Nat)
    (action : RemoveOneAction) : EngineOutcome :=
  match action.is_valid s current_player with
  | none => .crashed
  | some false => .illegalAction current_player
  | some true =>
    match s.apply_action action current_player with
    | some s2 => .applied s2
    | none => .crashed

/-- The loop body of `GameEngine._collect_simultaneous_actions` (lines
68-76): `enumerate(bots)`, skipping eliminated players; each bot's returned
action is a parameter. -/
def collectFrom (s : RemoveOneState) : Nat → List RemoveOneAction →
    Option (List (Nat × RemoveOneAction))
  | _, [] => some []
  | pid, a :: rest =>
    match s.is_player_eliminated pid with
    | none => none
    | some true => collectFrom s (pid + 1) rest
    | some false =>
      match collectFrom s (pid + 1) rest with
      | none => none
      | some l => some ((pid, a) :: l)

/-- `GameEngine._collect_simultaneous_actions` (lines 68-76). -/
def collect_simultaneous_actions (s : RemoveOneState)
    (botActions : List RemoveOneAction) : Option (List (Nat × RemoveOneAction)) :=
  collectFrom s 0 botActions

/-- The simultaneous branch of `GameEngine.run_game` (lines 39-46): the
collected actions are applied as a batch with no validation step. -/
def engineSimultaneousStep (s : RemoveOneState)
    (botActions : List RemoveOneAction) : EngineOutcome :=
  match collect_simultaneous_actions s botActions with
  | none => .crashed
  | some acts =>
    match s.apply_simultaneous_actions acts with
    | some s2 => .applied s2
    | none => .crashed

/-! ## The terminal condition as the spec words it -/

/-- Modelled from the spec's words (for comparison with the code's
`is_terminal`): fewer than 2 active players remain, or the round number
has advanced past the final scheduled elimination round — the last element
of the configured advancement-round list — while exactly 2 active players
remain. -/
def specTerminal (s : RemoveOneState) : Prop :=
  activeCount s ≤ 1 ∨
    (∃ last, s.advancement_rounds.getLast? = some last ∧
      last < s.round_num ∧ activeCount s = 2)

/-! ## Concrete scenario states -/

/-- The select action `(1, 2)`. -/
def selAct12 : RemoveOneAction := ⟨"select_cards", some (1, 2), none⟩

/-- A `choose_final` action for card `c`. -/
def chooseAct (c : Card) : RemoveOneAction := ⟨"choose_final", none, some c⟩

/-- One full legally-played round from a 2-player, 2-card initial state:
both select `(1, 2)`, player 0 chooses 1, player 1 chooses 2 (player 0
wins with card 1). -/
def winRoundRun : Option RemoveOneState :=
  ((((initialState 2 2).apply_action selAct12 0).bind
      (fun st => st.apply_action selAct12 1)).bind
    (fun st => st.apply_action (chooseAct 1) 0)).bind
    (fun st => st.apply_action (chooseAct 2) 1)

/-- The state `winRoundRun` ends in (computed by the embedding): the
winning card 1 has vanished from player 0's zones, and the discard pile is
still empty. -/
def winRoundResult : RemoveOneState :=
  { players := [⟨0, [], [2], 1, 1, false, 1⟩, ⟨1, [1], [2], 0, 0, false, 0⟩],
    round_num := 2, phase := "select" }

/-- Three players in the choose phase with revealed pairs containing the
spec's example final choices `{0:1, 1:2, 2:1}`. -/
def threePlayerChooseState : RemoveOneState :=
  { players := [⟨0, [1, 2, 3], [], 0, 0, false, 0⟩,
                ⟨1, [1, 2, 3], [], 0, 0, false, 0⟩,
                ⟨2, [1, 2, 3], [], 0, 0, false, 0⟩],
    round_num := 1, phase := "choose",
    revealed_cards := [(0, some (1, 2)), (1, some (2, 3)), (2, some (1, 3))],
    final_choices := [(0, some 1), (1, some 2)] }

/-- The state resolution of `threePlayerChooseState` ends in: player 1 won
with card 2 (score 2, one token), its unchosen card 3 went to its holding
box, and the non-winners hold their chosen card 1. -/
def uniqueMinResult : RemoveOneState :=
  { players := [⟨0, [2, 3], [1], 0, 0, false, 0⟩,
                ⟨1, [1], [3], 2, 1, false, 1⟩,
                ⟨2, [2, 3], [1], 0, 0, false, 0⟩],
    round_num := 2, phase := "select" }

/-- Round 3 (an advancement round), choose phase, all three players about
to submit the same card 1 — a no-winner round. -/
def noWinnerAdvState : RemoveOneState :=
  { players := [⟨0, [1, 2, 3], [], 0, 0, false, 0⟩,
                ⟨1, [1, 2, 3], [], 0, 0, false, 0⟩,
                ⟨2, [1, 2, 3], [], 0, 0, false, 0⟩],
    round_num := 3, phase := "choose",
    revealed_cards := [(0, some (1, 2)), (1, some (1, 2)), (2, some (1, 2))],
    final_choices := [(0, some 1), (1, some 1)] }

/-- The complete final-choice map of the `noWinnerAdvState` round. -/
def noWinnerFinals : List (Nat × Option Card) :=
  [(0, some 1), (1, some 1), (2, some 1)]

/-- The state the `noWinnerAdvState` round ends in: round advanced to 4,
nobody eliminated. -/
def noWinnerAdvResult : RemoveOneState :=
  { players := [⟨0, [2, 3], [1], 0, 0, false, 0⟩,
                ⟨1, [2, 3], [1], 0, 0, false, 0⟩,
                ⟨2, [2, 3], [1], 0, 0, false, 0⟩],
    round_num := 4, phase := "select" }

/-- Completed round 3 with a configured advancement list `[3]` whose last
(hence final) element is 3, and exactly 3 active players with scores
5, 1, 3. -/
def finalAdvState : RemoveOneState :=
  { players := [⟨0, [1], [], 5, 0, false, 0⟩,
                ⟨1, [1], [], 1, 0, false, 0⟩,
                ⟨2, [1], [], 3, 0, false, 0⟩],
    round_num := 3, phase := "select", advancement_rounds := [3] }

/-- What `_handle_elimination` does to `finalAdvState`: it eliminates the
leader (player 0, score 5), not the trailer. -/
def finalAdvResult : RemoveOneState :=
  { players := [⟨0, [1], [], 5, 0, true, 0⟩,
                ⟨1, [1], [], 1, 0, false, 0⟩,
                ⟨2, [1], [], 3, 0, false, 0⟩],
    round_num := 3, phase := "select", advancement_rounds := [3] }

/-- A state past the configured final advancement round (list `[3]`, round
5) with exactly 2 active players. -/
def postBracketState : RemoveOneState :=
  { players := [⟨0, [1], [], 0, 0, false, 0⟩, ⟨1, [1], [], 0, 0, false, 0⟩],
    round_num := 5, phase := "select", advancement_rounds := [3] }

/-- A state whose round number is not 18 and with a single active player
(elimination precondition fails). -/
def soloState : RemoveOneState :=
  { players := [⟨0, [1], [], 0, 0, false, 0⟩], round_num := 5, phase := "select" }

/-- Two players in the select phase, for the engine scenarios. -/
def engineDemoState : RemoveOneState :=
  { players := [⟨0, [1, 2, 3], [], 0, 0, false, 0⟩,
                ⟨1, [1, 2, 3], [], 0, 0, false, 0⟩],
    round_num := 1, phase := "select" }

/-- A select action naming cards the player does not hold. -/
def badSelect : RemoveOneAction := ⟨"select_cards", some (9, 9), none⟩

/-- A legal select action for hand `[1, 2, 3]`. -/
def okSelect : RemoveOneAction := ⟨"select_cards", some (1, 2), none⟩

/-- A single player with hand `[1, 2, 3]`. -/
def dupPlayer : RemoveOnePlayer := ⟨0, [1, 2, 3], [], 0, 0, false, 0⟩

/-- One-player select-phase state for the validity scenarios. -/
def dupSelectState : RemoveOneState :=
  { players := [dupPlayer], round_num := 1, phase := "select" }

/-- A select action naming the same card twice. -/
def dupSelect : RemoveOneAction := ⟨"select_cards", some (2, 2), none⟩

/-- An action whose type is neither `select_cards` nor `choose_final`. -/
def bogusAct : RemoveOneAction := ⟨"bogus", none, none⟩

/-- One active player holding cards 3 and 4, select phase. -/
def inconsistentSelectState : RemoveOneState :=
  { players := [⟨0, [3, 4], [], 0, 0, false, 0⟩], round_num := 1, phase := "select" }

/-- A select action recording the pair `(3, 3)` (the same card twice) —
`apply_action` records it without checking. -/
def dupRevealAct : RemoveOneAction := ⟨"select_cards", some (3, 3), none⟩

/-- The state after `dupRevealAct` is applied to `inconsistentSelectState`:
the degenerate pair is recorded and the phase advanced. -/
def inconsistentChooseState : RemoveOneState :=
  { players := [⟨0, [3, 4], [], 0, 0, false, 0⟩], round_num := 1, phase := "choose",
    revealed_cards := [(0, some (3, 3))] }

/-! ## Theorems -/

/-- Claim C1: card conservation fails on the code. A complete legally
played round with a winner, reached from the 2-player 2-card initial state
by four `apply_action` steps, ends with a spec card sum of 3, not
`players × handSize = 4`: the winning card is removed from the winner's
hand but never added to the discard pile (no code path ever appends to
`discard_pile`), so round resolution destroys one card per winning round. -/
theorem card_conservation_violated :
    winRoundRun = some winRoundResult ∧
    specCardSum (initialState 2 2) = 2 * 2 ∧
    specCardSum winRoundResult = 3 := by
  refine ⟨by decide, by decide, by decide⟩

/-- Claim C2: after a round with a winner the discard pile does not grow
at all. In the `winRoundRun` round, player 0 wins with card 1 (score and
token awarded), yet the resulting discard pile is exactly the initial
empty one — the code never appends the winning card anywhere. -/
theorem discard_pile_unchanged_after_win :
    winRoundRun = some winRoundResult ∧
    (winRoundResult.players.get? 0).map
      (fun p => (p.score, p.victory_tokens)) = some (1, 1) ∧
    winRoundResult.discard_pile = (initialState 2 2).discard_pile := by
  refine ⟨by decide, by decide, by decide⟩

/-- Claim C4 counterexample: final choices `{0:1, 1:2, 2:1}` do NOT yield
a no-winner round. Card 2 is submitted by exactly one player, so it is a
candidate, and player 1 wins with it; moreover player 1's chosen card 2
does not move to its holding box (the holding box receives the unchosen
card 3 instead). -/
theorem no_winner_example_refuted :
    resolveWinner [(0, some 1), (1, some 2), (2, some 1)] = some (1, 2) ∧
    threePlayerChooseState.apply_action (chooseAct 1) 2 = some uniqueMinResult ∧
    (uniqueMinResult.players.get? 1).map (fun p => p.holding_box) = some [3] := by
  refine ⟨by decide, by decide, by decide⟩

/-- Claim C4 (amended): resolving the round with final choices
`{0:1, 1:2, 2:1}` over active players 0, 1, 2 yields player 1 as the round
winner with card 2 (the unique minimum candidate; card 1 is duplicated and
not a candidate). Players 0 and 2 receive their chosen card 1 in their
holding boxes; winner 1 receives its unchosen revealed card 3 in its
holding box, and its winning card 2 leaves play entirely — the discard
pile stays unchanged. -/
theorem unique_min_example_resolution :
    threePlayerChooseState.apply_action (chooseAct 1) 2 = some uniqueMinResult := by
  decide

/-- Claim C5 counterexample: a no-winner round completing on advancement
round 3 eliminates nobody: `_advance_round_no_winner` never invokes the
elimination policy, although the policy would eliminate one of the three
active players at this round. -/
theorem no_winner_advancement_skips_elimination :
    noWinnerAdvState.advancement_rounds.contains noWinnerAdvState.round_num = true ∧
    activeCount noWinnerAdvState = 3 ∧
    noWinnerAdvState.apply_action (chooseAct 1) 2 = some noWinnerAdvResult ∧
    (noWinnerAdvResult.players.filter (fun p => p.eliminated)).length = 0 ∧
    noWinnerAdvResult.round_num = noWinnerAdvState.round_num + 1 := by
  refine ⟨by decide, by decide, by decide, by decide, by decide⟩

/-- Claim C6 counterexample: with the configured advancement list `[3]`,
round 3 is the final advancement round and exactly 3 players are active,
so the claim requires the lowest-tuple player (player 1, score 1) to be
eliminated; the code instead compares `round_num` against the hardcoded 18,
takes the non-final branch, and eliminates the highest-tuple player
(player 0, score 5). -/
theorem final_advancement_eliminates_leader :
    finalAdvState.advancement_rounds = [3] ∧
    finalAdvState.round_num = 3 ∧
    activeCount finalAdvState = 3 ∧
    handle_elimination finalAdvState = some finalAdvResult ∧
    (finalAdvResult.players.get? 0).map (fun p => p.eliminated) = some true ∧
    (finalAdvResult.players.get? 1).map (fun p => p.eliminated) = some false := by
  refine ⟨by decide, by decide, by decide, by decide, by decide, by decide⟩

/-- Claim C7 counterexample: a state satisfying the claim's terminal
condition (round 5 has advanced past the configured final elimination
round 3, with exactly 2 active players) on which `is_terminal` is false:
the code compares the round number against the hardcoded 18, not against
the last element of the configured advancement-round list. -/
theorem terminal_ignores_configured_rounds :
    specTerminal postBracketState ∧ postBracketState.is_terminal = false := by
  constructor
  · exact Or.inr ⟨3, rfl, by decide, by decide⟩
  · decide

/-- Claim C8 counterexample: on the simultaneous-collection path the
engine applies an action that fails validation, with no error and no
abort: `badSelect` is invalid for player 0 (cards 9 not in hand), yet the
simultaneous step returns an applied state in which the invalid pair has
been recorded. -/
theorem simultaneous_path_applies_invalid_action :
    RemoveOneAction.is_valid badSelect engineDemoState 0 = some false ∧
    engineSimultaneousStep engineDemoState [badSelect, okSelect] =
      EngineOutcome.applied { engineDemoState with
        revealed_cards := [(0, some (9, 9)), (1, some (1, 2))],
        phase := "choose" } := by
  refine ⟨by decide, by decide⟩

/-- Claim C9 counterexample: an action naming the same card twice passes
validation. With hand `[1, 2, 3]` in the select phase, the action with
cards `(2, 2)` is reported valid — `is_valid` checks membership of each
card but never distinctness. -/
theorem duplicate_pair_passes_validation :
    dupSelect.cards = some (2, 2) ∧
    RemoveOneAction.is_valid dupSelect dupSelectState 0 = some true := by
  refine ⟨by decide, by decide⟩

/-- Claim C10 counterexample: `apply_action` can raise. Recording the
degenerate pair `(3, 3)` succeeds and moves the phase to choose; the
subsequent `choose_final` of card 3 completes the quorum, round resolution
declares card 3 the winner, and `next(card for card in revealed if card !=
final_choice)` raises `StopIteration` — the model returns `none`. -/
theorem apply_action_can_raise :
    inconsistentSelectState.apply_action dupRevealAct 0 = some inconsistentChooseState ∧
    inconsistentChooseState.apply_action (chooseAct 3) 0 = none := by
  refine ⟨by decide, by decide⟩

/-- The no-winner relocation body never changes a player's `eliminated`
flag (it only rebuilds `hand` and `holding_box`). -/
lemma no_winner_relocate_player_eliminated
    (rc : List (Nat × Option (Card × Card))) (fc : List (Nat × Option Card))
    (pid : Nat) (p q : RemoveOnePlayer)
    (h : no_winner_relocate_player rc fc pid p = some q) :
    q.eliminated = p.eliminated := by
  unfold no_winner_relocate_player at h
  repeat' split at h
  all_goals cases h
  all_goals rfl

/-- A fallible per-player map that preserves the `eliminated` flag
pointwise preserves the list of flags. -/
lemma mapIdxOption_eliminated
    {f : Nat → RemoveOnePlayer → Option RemoveOnePlayer}
    (hf : ∀ i p q, f i p = some q → q.eliminated = p.eliminated) :
    ∀ (ps : List RemoveOnePlayer) (i : Nat) (qs : List RemoveOnePlayer),
      mapIdxOption f i ps = some qs →
      qs.map (fun p => p.eliminated) = ps.map (fun p => p.eliminated) := by
  intro ps
  induction ps with
  | nil =>
    intro i qs h
    simp only [mapIdxOption, Option.some_inj] at h
    subst h
    rfl
  | cons p ps ih =>
    intro i qs h
    simp only [mapIdxOption] at h
    cases hf1 : f i p with
    | none => rw [hf1] at h; cases h
    | some q =>
      rw [hf1] at h
      cases hrec : mapIdxOption f (i + 1) ps with
      | none => rw [hrec] at h; cases h
      | some qs' =>
        rw [hrec] at h
        injection h with h
        subst h
        simp only [List.map_cons, hf i p q hf1, ih (i + 1) qs' hrec]

/-- Claim C5 (amended): the elimination policy is consulted (before the
round counter is incremented) only when the completed round produced a
winner: on the winner path, a completed round whose number lies in the
configured advancement set passes through `_handle_elimination` and only
then increments the round counter; on the no-winner path the round counter
is incremented with every player's `eliminated` flag exactly preserved —
no elimination check happens there, advancement round or not. -/
theorem elimination_only_on_winner_path :
    (∀ (s : RemoveOneState) (fcs : List (Nat × Option Card)) (s' : RemoveOneState),
        advance_round_no_winner s fcs = some s' →
        s'.players.map (fun p => p.eliminated) = s.players.map (fun p => p.eliminated) ∧
        s'.round_num = s.round_num + 1) ∧
    (∀ (s : RemoveOneState) (wid : Nat) (wc : Card)
        (fcs : List (Nat × Option Card)) (s' : RemoveOneState),
        s.advancement_rounds.contains s.round_num = true →
        award_points_and_advance s wid wc fcs = some s' →
        ∃ st st2, handle_elimination st = some st2 ∧
          st.round_num = s.round_num ∧ s' = advance_to_next_round st2) := by
  constructor
  · intro s fcs s' h
    unfold advance_round_no_winner at h
    cases hm : mapIdxOption (no_winner_relocate_player s.revealed_cards fcs) 0 s.players with
    | none => rw [hm] at h; cases h
    | some ps2 =>
      rw [hm] at h
      injection h with h
      subst h
      refine ⟨?_, rfl⟩
      exact mapIdxOption_eliminated
        (fun i p q hq => no_winner_relocate_player_eliminated _ _ _ _ _ hq)
        s.players 0 ps2 hm
  · intro s wid wc fcs s' hadv h
    simp only [award_points_and_advance] at h
    split at h
    · cases h
    · split at h
      · cases h
      · rw [if_pos hadv] at h
        split at h
        · cases h
        · rename_i st2 he
          injection h with h
          exact ⟨_, st2, he, rfl, h.symm⟩

/-- Witness for `elimination_only_on_winner_path` at a concrete input: the
no-winner round from round 3 keeps all three players active and advances
the round counter. -/
theorem elimination_only_on_winner_path_witness :
    noWinnerAdvResult.players.map (fun p => p.eliminated) =
      noWinnerAdvState.players.map (fun p => p.eliminated) ∧
    noWinnerAdvResult.round_num = noWinnerAdvState.round_num + 1 :=
  elimination_only_on_winner_path.1 noWinnerAdvState noWinnerFinals
    noWinnerAdvResult (by decide)

/-- Claim C7 (amended): `is_terminal` is true iff fewer than 2 active
players remain, or the round number has advanced past the hardcoded round
18 — not past the last element of the configured advancement-round list —
while exactly 2 active players remain. -/
theorem is_terminal_spec (s : RemoveOneState) :
    s.is_terminal = true ↔
      (activeCount s ≤ 1 ∨ (18 < s.round_num ∧ activeCount s = 2)) := by
  simp only [RemoveOneState.is_terminal, Bool.or_eq_true, Bool.and_eq_true,
    decide_eq_true_eq]
  omega

/-- Claim C8 (amended): the engine validates an agent's action against the
pre-apply state only on the sequential path, where a failing action aborts
the run naming the offending actor and is never applied; on the
simultaneous-collection path — the only path this game uses — collected
actions are applied with no validation at all, and no illegal-action error
can ever be raised there. -/
theorem engine_validation_only_sequential :
    (∀ (s : RemoveOneState) (pid : Nat) (a : RemoveOneAction),
        RemoveOneAction.is_valid a s pid = some false →
        engineSequentialStep s pid a = EngineOutcome.illegalAction pid) ∧
    (∀ (s : RemoveOneState) (pid : Nat) (a : RemoveOneAction) (s2 : RemoveOneState),
        RemoveOneAction.is_valid a s pid = some true →
        s.apply_action a pid = some s2 →
        engineSequentialStep s pid a = EngineOutcome.applied s2) ∧
    (∀ (s : RemoveOneState) (botActions : List RemoveOneAction) (pid : Nat),
        engineSimultaneousStep s botActions ≠ EngineOutcome.illegalAction pid) := by
  refine ⟨?_, ?_, ?_⟩
  · intro s pid a h
    simp [engineSequentialStep, h]
  · intro s pid a s2 h1 h2
    simp [engineSequentialStep, h1, h2]
  · intro s botActions pid
    simp only [engineSimultaneousStep]
    cases h1 : collect_simultaneous_actions s botActions with
    | none => simp
    | some acts =>
      cases h2 : RemoveOneState.apply_simultaneous_actions s acts with
      | none => simp [h2]
      | some s2 => simp [h2]

/-- Witness for `engine_validation_only_sequential` at a concrete input:
the invalid `badSelect` aborts the sequential path naming actor 0. -/
theorem engine_validation_only_sequential_witness :
    engineSequentialStep engineDemoState 0 badSelect = EngineOutcome.illegalAction 0 :=
  engine_validation_only_sequential.1 engineDemoState 0 badSelect (by decide)

/-- Claim C9 (amended): for a `select_cards` action, validity holds iff
the phase is `select`, the player is not eliminated, and the action names
a pair of cards — not necessarily distinct — each present in that player's
hand; in particular an action naming the same held card twice is valid. -/
theorem select_validity_spec (s : RemoveOneState) (pid : Nat)
    (a : RemoveOneAction) (pl : RemoveOnePlayer)
    (hp : s.players.get? pid = some pl)
    (ht : a.action_type = "select_cards") :
    RemoveOneAction.is_valid a s pid = some true ↔
      (pl.eliminated = false ∧ s.phase = "select" ∧
        ∃ c1 c2, a.cards = some (c1, c2) ∧ c1 ∈ pl.hand ∧ c2 ∈ pl.hand) := by
  simp only [RemoveOneAction.is_valid, hp, ht]
  cases hE : pl.eliminated with
  | true => simp
  | false =>
    by_cases hPh : s.phase = "select"
    · cases hc : a.cards with
      | none => simp [hPh]
      | some cc =>
        obtain ⟨c1, c2⟩ := cc
        simp [hPh, List.contains, List.elem_iff, and_assoc]
    · have hb : (s.phase == "select") = false := by
        simpa using hPh
      simp [hb, hPh]

/-- Witness for `select_validity_spec` at a concrete input: `okSelect`
(cards 1 and 2, both in `dupPlayer`'s hand) is valid in the select
phase. -/
theorem select_validity_spec_witness :
    RemoveOneAction.is_valid okSelect dupSelectState 0 = some true :=
  (select_validity_spec dupSelectState 0 okSelect dupPlayer rfl rfl).mpr
    ⟨rfl, rfl, 1, 2, rfl, by decide, by decide⟩

/-- Claim C10 (amended): `apply_action` performs no validity checking of
its own — it records a `select_cards` action's card field into the
revealed-cards map and a `choose_final` action's card field into the
final-choice map regardless of the current phase, the acting player's
elimination status, or whether the player holds or revealed those cards;
an action with an unrecognized action type returns the state unchanged.
The recording itself never fails, but (unlike the original claim) a
recorded final choice that brings the final-choice count up to the
active-player count triggers round resolution, which can raise on
inconsistent recorded data (`apply_action_can_raise`). -/
theorem apply_action_records_unconditionally :
    (∀ (s : RemoveOneState) (a : RemoveOneAction) (pid : Nat),
        a.action_type = "select_cards" →
        s.apply_action a pid = some (
          if (dictInsert s.revealed_cards pid a.cards).length = activeCount s then
            { s with revealed_cards := dictInsert s.revealed_cards pid a.cards,
                     phase := "choose" }
          else
            { s with revealed_cards := dictInsert s.revealed_cards pid a.cards })) ∧
    (∀ (s : RemoveOneState) (a : RemoveOneAction) (pid : Nat),
        a.action_type = "choose_final" →
        (dictInsert s.final_choices pid a.final_card).length ≠ activeCount s →
        s.apply_action a pid =
          some { s with final_choices := dictInsert s.final_choices pid a.final_card }) ∧
    (∀ (s : RemoveOneState) (a : RemoveOneAction) (pid : Nat),
        a.action_type ≠ "select_cards" → a.action_type ≠ "choose_final" →
        s.apply_action a pid = some s) := by
  refine ⟨?_, ?_, ?_⟩
  · intro s a pid h
    simp only [RemoveOneState.apply_action, h, beq_self_eq_true, if_true, beq_iff_eq]
    split <;> rfl
  · intro s a pid h hlen
    have hb : (("choose_final" : String) == "select_cards") = false := by decide
    simp only [RemoveOneState.apply_action, h, hb, Bool.false_eq_true, if_false,
      beq_self_eq_true, if_true, beq_iff_eq, if_neg hlen]
  · intro s a pid h1 h2
    have hb1 : (a.action_type == "select_cards") = false := by
      simpa using h1
    have hb2 : (a.action_type == "choose_final") = false := by
      simpa using h2
    simp only [RemoveOneState.apply_action, hb1, hb2, Bool.false_eq_true, if_false]

/-- Witness for `apply_action_records_unconditionally` at a concrete
input: an unrecognized action type leaves the state unchanged. -/
theorem apply_action_records_unconditionally_witness :
    dupSelectState.apply_action bogusAct 0 = some dupSelectState :=
  apply_action_records_unconditionally.2.2 dupSelectState bogusAct 0
    (by decide) (by decide)

/-- Unfolding `card_count` over a cons cell. -/
lemma card_count_cons (k : Nat) (v : Option Card)
    (rest : List (Nat × Option Card)) (c : Option Card) :
    card_count ((k, v) :: rest) c = (if v == c then 1 else 0) + card_count rest c := by
  simp only [card_count, List.map_cons, List.filter_cons]
  split <;> simp [Nat.add_comm]

/-- A submitted pair contributes at least one to its card's count. -/
lemma card_count_pos_of_mem {fcs : List (Nat × Option Card)} {k : Nat}
    {v : Option Card} (h : (k, v) ∈ fcs) : 1 ≤ card_count fcs v := by
  induction fcs with
  | nil => cases h
  | cons kv rest ih =>
    obtain ⟨k0, v0⟩ := kv
    rw [card_count_cons]
    rcases List.mem_cons.mp h with h1 | h2
    · rw [show v0 = v from (Prod.ext_iff.mp h1.symm).2]
      simp
    · have h3 := ih h2
      split <;> omega

/-- A value with positive count occurs among the submitted values. -/
lemma mem_val_of_card_count_pos {fcs : List (Nat × Option Card)}
    {c : Option Card} (h : 1 ≤ card_count fcs c) : c ∈ fcs.map Prod.snd := by
  by_contra hc
  have hnil : (fcs.map Prod.snd).filter (fun v => v == c) = [] := by
    rw [List.filter_eq_nil_iff]
    intro a ha
    simp only [beq_iff_eq]
    intro heq
    exact hc (heq ▸ ha)
  simp [card_count, hnil] at h

/-- The code's `unique_cards` are exactly the values submitted exactly
once. -/
lemma mem_unique_cards_iff (fcs : List (Nat × Option Card)) (c : Option Card) :
    c ∈ unique_cards fcs ↔ card_count fcs c = 1 := by
  simp only [unique_cards, List.mem_filter, List.mem_dedup, beq_iff_eq]
  constructor
  · rintro ⟨_, h⟩
    exact h
  · intro h
    exact ⟨mem_val_of_card_count_pos (by omega), h⟩

/-- A card counted exactly once has a unique submitter. -/
lemma submitter_unique {fcs : List (Nat × Option Card)} {v : Option Card}
    (h : card_count fcs v = 1) :
    ∀ p q, (p, v) ∈ fcs → (q, v) ∈ fcs → p = q := by
  induction fcs with
  | nil => intro p q hp _; cases hp
  | cons kv rest ih =>
    obtain ⟨k0, v0⟩ := kv
    rw [card_count_cons] at h
    intro p q hp hq
    rcases List.mem_cons.mp hp with hp1 | hp2 <;>
      rcases List.mem_cons.mp hq with hq1 | hq2
    · exact (Prod.ext_iff.mp hp1).1.trans (Prod.ext_iff.mp hq1).1.symm
    · exfalso
      have hv0 : v0 = v := (Prod.ext_iff.mp hp1.symm).2
      have hpos := card_count_pos_of_mem hq2
      rw [hv0] at h
      simp only [beq_self_eq_true, if_true] at h
      omega
    · exfalso
      have hv0 : v0 = v := (Prod.ext_iff.mp hq1.symm).2
      have hpos := card_count_pos_of_mem hp2
      rw [hv0] at h
      simp only [beq_self_eq_true, if_true] at h
      omega
    · have hle : card_count rest v = 1 := by
        have hpos := card_count_pos_of_mem hp2
        split at h <;> omega
      exact ih hle p q hp2 hq2

/-- When every stored value is present, `liftSome` succeeds and the list
is the image of the result under `some`. -/
lemma liftSome_all_some :
    ∀ (l : List (Option Card)), (∀ v ∈ l, v.isSome = true) →
      ∃ cs, liftSome l = some cs ∧ l = cs.map some := by
  intro l
  induction l with
  | nil => exact fun _ => ⟨[], rfl, rfl⟩
  | cons v rest ih =>
    intro hall
    cases v with
    | none =>
      have := hall none (List.mem_cons_self _ _)
      simp at this
    | some c =>
      obtain ⟨cs, h1, h2⟩ := ih (fun v hv => hall v (List.mem_cons_of_mem _ hv))
      exact ⟨c :: cs, by simp [liftSome, h1], by simp [h2]⟩

/-- `listMin` of a nonempty list is defined. -/
lemma listMin_cons_isSome (y : Card) (ys : List Card) :
    (listMin (y :: ys)).isSome = true := by
  simp only [listMin]
  cases listMin ys <;> simp

/-- `listMin` returns a member that lower-bounds the list. -/
lemma listMin_spec : ∀ (l : List Card) (m : Card),
    listMin l = some m → m ∈ l ∧ ∀ x ∈ l, m ≤ x := by
  intro l
  induction l with
  | nil => intro m h; cases h
  | cons x xs ih =>
    intro m h
    simp only [listMin] at h
    cases hm : listMin xs with
    | none =>
      rw [hm] at h
      injection h with h
      subst h
      cases xs with
      | nil =>
        refine ⟨List.mem_singleton_self _, ?_⟩
        intro y hy
        have hxy := List.mem_singleton.mp hy
        subst hxy
        exact le_refl _
      | cons y ys =>
        have := listMin_cons_isSome y ys
        rw [hm] at this
        cases this
    | some m' =>
      rw [hm] at h
      injection h with h
      subst h
      obtain ⟨hmem, hle⟩ := ih m' hm
      constructor
      · rcases le_total x m' with hx | hx
        · rw [min_eq_left hx]
          exact List.mem_cons_self _ _
        · rw [min_eq_right hx]
          exact List.mem_cons_of_mem _ hmem
      · intro y hy
        rcases List.mem_cons.mp hy with rfl | hy2
        · exact min_le_left _ _
        · exact le_trans (min_le_right _ _) (hle y hy2)

/-- `find?` succeeds when some element satisfies the predicate. -/
lemma find?_of_mem {α : Type} (p : α → Bool) :
    ∀ (l : List α), (∃ x ∈ l, p x = true) → ∃ a, l.find? p = some a := by
  intro l
  induction l with
  | nil => rintro ⟨x, hx, _⟩; cases hx
  | cons y ys ih =>
    rintro ⟨x, hx, hpx⟩
    cases hpy : p y with
    | true => exact ⟨y, List.find?_cons_of_pos _ hpy⟩
    | false =>
      rcases List.mem_cons.mp hx with rfl | hx2
      · rw [hpy] at hpx; cases hpx
      · obtain ⟨a, ha⟩ := ih ⟨x, hx2, hpx⟩
        exact ⟨a, by rw [List.find?_cons_of_neg _ (by simp [hpy]), ha]⟩

/-- Claim C3: in `_resolve_round`, a card is a candidate winner iff
exactly one player submitted it; when any candidate exists, the computed
round winner is the (unique) submitter of the minimum-valued candidate;
and on the spec's example `{0:3, 1:5, 2:5, 3:2}` the winner is player 3
with card 2. -/
theorem resolve_round_winner_spec (fcs : List (Nat × Option Card))
    (hsome : ∀ kv ∈ fcs, (Prod.snd kv).isSome = true) :
    (∀ c : Card, some c ∈ unique_cards fcs ↔ card_count fcs (some c) = 1) ∧
    (unique_cards fcs ≠ [] →
      ∃ pid w, resolveWinner fcs = some (pid, w) ∧
        card_count fcs (some w) = 1 ∧
        (pid, some w) ∈ fcs ∧
        (∀ q, (q, some w) ∈ fcs → q = pid) ∧
        (∀ c : Card, card_count fcs (some c) = 1 → w ≤ c)) ∧
    resolveWinner [(0, some 3), (1, some 5), (2, some 5), (3, some 2)] = some (3, 2) := by
  refine ⟨fun c => mem_unique_cards_iff fcs (some c), ?_, by decide⟩
  intro hne
  have hcand_some : ∀ v ∈ unique_cards fcs, v.isSome = true := by
    intro v hv
    have hm : v ∈ fcs.map Prod.snd :=
      List.mem_dedup.mp (List.mem_filter.mp hv).1
    obtain ⟨kv, hkv, hkv2⟩ := List.mem_map.mp hm
    exact hkv2 ▸ hsome kv hkv
  obtain ⟨cs, hlift, hcs⟩ := liftSome_all_some _ hcand_some
  have hcsne : cs ≠ [] := by
    intro h0
    rw [h0] at hcs
    exact hne (by simpa using hcs)
  obtain ⟨m, hmin⟩ : ∃ m, listMin cs = some m := by
    cases cs with
    | nil => exact absurd rfl hcsne
    | cons y ys =>
      cases hmm : listMin (y :: ys) with
      | none => have := listMin_cons_isSome y ys; rw [hmm] at this; cases this
      | some m => exact ⟨m, rfl⟩
  obtain ⟨hmem_cs, hle_cs⟩ := listMin_spec cs m hmin
  have hmem_u : some m ∈ unique_cards fcs := by
    rw [hcs]
    exact List.mem_map_of_mem some hmem_cs
  have hcount : card_count fcs (some m) = 1 := (mem_unique_cards_iff _ _).mp hmem_u
  have hval : some m ∈ fcs.map Prod.snd := mem_val_of_card_count_pos (by omega)
  have hfind : ∃ a, fcs.find? (fun pc => pc.2 == some m) = some a := by
    obtain ⟨kv, hkv, hkv2⟩ := List.mem_map.mp hval
    exact find?_of_mem _ fcs ⟨kv, hkv, by simp [hkv2]⟩
  obtain ⟨⟨pid, vv⟩, hfa⟩ := hfind
  have hp := List.find?_some hfa
  have hmemf := List.mem_of_find?_eq_some hfa
  have hvv : vv = some m := by simpa using hp
  subst hvv
  refine ⟨pid, m, ?_, hcount, hmemf, ?_, ?_⟩
  · simp only [resolveWinner, hlift, hmin, hfa]
  · intro q hq
    exact submitter_unique hcount q pid hq hmemf
  · intro c hc
    have hcu : some c ∈ unique_cards fcs := (mem_unique_cards_iff _ _).mpr hc
    rw [hcs] at hcu
    obtain ⟨c', hc', he⟩ := List.mem_map.mp hcu
    injection he with he
    exact he ▸ hle_cs c' hc'

/-- Witness for `resolve_round_winner_spec` at the spec's concrete
example. -/
theorem resolve_round_winner_spec_witness :
    resolveWinner [(0, some 3), (1, some 5), (2, some 5), (3, some 2)] = some (3, 2) :=
  (resolve_round_winner_spec [(0, some 3), (1, some 5), (2, some 5), (3, some 2)]
    (by decide)).2.2

/-- `lexLt` in propositional form (Python tuple `<`). -/
lemma lexLt_iff (a b : Int × Int × Int) :
    lexLt a b = true ↔
      (a.1 < b.1 ∨ (a.1 = b.1 ∧
        (a.2.1 < b.2.1 ∨ (a.2.1 = b.2.1 ∧ a.2.2 < b.2.2)))) := by
  obtain ⟨a1, a2, a3⟩ := a
  obtain ⟨b1, b2, b3⟩ := b
  simp [lexLt, Bool.or_eq_true, Bool.and_eq_true, decide_eq_true_eq, beq_iff_eq]

/-- `lexLt` is irreflexive. -/
lemma lexLt_irrefl (a : Int × Int × Int) : lexLt a a = false := by
  rw [← Bool.not_eq_true, lexLt_iff]
  omega

/-- `lexLt` is transitive. -/
lemma lexLt_trans {a b c : Int × Int × Int}
    (h1 : lexLt a b = true) (h2 : lexLt b c = true) : lexLt a c = true := by
  rw [lexLt_iff] at h1 h2 ⊢
  omega

/-- From `a < c` and `¬(b < c)` conclude `a < b` (totality of the
lexicographic order). -/
lemma lexLt_of_lt_of_not_lt {a b c : Int × Int × Int}
    (h1 : lexLt a c = true) (h2 : lexLt b c = false) : lexLt a b = true := by
  rw [lexLt_iff] at h1 ⊢
  rw [← Bool.not_eq_true, lexLt_iff] at h2
  omega

/-- Optimality of the fold implementing Python `max(..., key=k)`: the
result is the seed or a list member, and nothing (seed included) is
strictly greater. (First-attainment is `foldl_max_first`.) -/
lemma foldl_max_aux (k : RemoveOnePlayer → Int × Int × Int) :
    ∀ (xs : List RemoveOnePlayer) (b : RemoveOnePlayer),
      ((xs.foldl (fun best q => if lexLt (k best) (k q) then q else best) b) = b ∨
        (xs.foldl (fun best q => if lexLt (k best) (k q) then q else best) b) ∈ xs) ∧
      lexLt (k (xs.foldl (fun best q => if lexLt (k best) (k q) then q else best) b))
        (k b) = false ∧
      (∀ q ∈ xs,
        lexLt (k (xs.foldl (fun best q => if lexLt (k best) (k q) then q else best) b))
          (k q) = false) := by
  intro xs
  induction xs with
  | nil =>
    intro b
    exact ⟨Or.inl rfl, lexLt_irrefl _, fun q h => absurd h (List.not_mem_nil q)⟩
  | cons x rest ih =>
    intro b
    simp only [List.foldl_cons]
    by_cases hbx : lexLt (k b) (k x) = true
    · rw [if_pos hbx]
      obtain ⟨hmem, hb', hall⟩ := ih x
      refine ⟨?_, ?_, ?_⟩
      · rcases hmem with h | h
        · exact Or.inr (by rw [h]; exact List.mem_cons_self x rest)
        · exact Or.inr (List.mem_cons_of_mem _ h)
      · rw [← Bool.not_eq_true]
        intro hrb
        have hcontra := lexLt_trans hrb hbx
        rw [hb'] at hcontra
        cases hcontra
      · intro q hq
        rcases List.mem_cons.mp hq with rfl | hq2
        · exact hb'
        · exact hall q hq2
    · have hbx' : lexLt (k b) (k x) = false := by
        cases hv : lexLt (k b) (k x)
        · rfl
        · exact absurd hv hbx
      rw [if_neg hbx]
      obtain ⟨hmem, hb', hall⟩ := ih b
      refine ⟨?_, hb', ?_⟩
      · rcases hmem with h | h
        · exact Or.inl h
        · exact Or.inr (List.mem_cons_of_mem _ h)
      · intro q hq
        rcases List.mem_cons.mp hq with rfl | hq2
        · rw [← Bool.not_eq_true]
          intro hrx
          have hcontra := lexLt_of_lt_of_not_lt hrx hbx'
          rw [hb'] at hcontra
          cases hcontra
        · exact hall q hq2

/-- Optimality of the fold implementing Python `min(..., key=k)`: the
result is the seed or a list member, and nothing falls strictly below it.
(First-attainment is `foldl_min_first`.) -/
lemma foldl_min_aux (k : RemoveOnePlayer → Int × Int × Int) :
    ∀ (xs : List RemoveOnePlayer) (b : RemoveOnePlayer),
      ((xs.foldl (fun best q => if lexLt (k q) (k best) then q else best) b) = b ∨
        (xs.foldl (fun best q => if lexLt (k q) (k best) then q else best) b) ∈ xs) ∧
      lexLt (k b)
        (k (xs.foldl (fun best q => if lexLt (k q) (k best) then q else best) b)) = false ∧
      (∀ q ∈ xs,
        lexLt (k q)
          (k (xs.foldl (fun best q => if lexLt (k q) (k best) then q else best) b)) = false) := by
  intro xs
  induction xs with
  | nil =>
    intro b
    exact ⟨Or.inl rfl, lexLt_irrefl _, fun q h => absurd h (List.not_mem_nil q)⟩
  | cons x rest ih =>
    intro b
    simp only [List.foldl_cons]
    by_cases hxb : lexLt (k x) (k b) = true
    · rw [if_pos hxb]
      obtain ⟨hmem, hb', hall⟩ := ih x
      refine ⟨?_, ?_, ?_⟩
      · rcases hmem with h | h
        · exact Or.inr (by rw [h]; exact List.mem_cons_self x rest)
        · exact Or.inr (List.mem_cons_of_mem _ h)
      · rw [← Bool.not_eq_true]
        intro hbr
        have hcontra := lexLt_trans hxb hbr
        rw [hb'] at hcontra
        cases hcontra
      · intro q hq
        rcases List.mem_cons.mp hq with rfl | hq2
        · exact hb'
        · exact hall q hq2
    · have hxb' : lexLt (k x) (k b) = false := by
        cases hv : lexLt (k x) (k b)
        · rfl
        · exact absurd hv hxb
      rw [if_neg hxb]
      obtain ⟨hmem, hb', hall⟩ := ih b
      refine ⟨?_, hb', ?_⟩
      · rcases hmem with h | h
        · exact Or.inl h
        · exact Or.inr (List.mem_cons_of_mem _ h)
      · intro q hq
        rcases List.mem_cons.mp hq with rfl | hq2
        · rw [← Bool.not_eq_true]
          intro hxr
          have hcontra := lexLt_of_lt_of_not_lt hxr hb'
          rw [hxb'] at hcontra
          cases hcontra
        · exact hall q hq2

/-- First-attainment of the fold implementing Python `max(..., key=k)`:
every element strictly before the result in `seed :: list` order is
strictly below it, so among tied maxima the earliest wins. -/
lemma foldl_max_first (k : RemoveOnePlayer → Int × Int × Int) :
    ∀ (xs : List RemoveOnePlayer) (b : RemoveOnePlayer),
      ∃ l1 l2,
        b :: xs = l1 ++
          (xs.foldl (fun best q => if lexLt (k best) (k q) then q else best) b) :: l2 ∧
        ∀ q ∈ l1, lexLt (k q)
          (k (xs.foldl (fun best q => if lexLt (k best) (k q) then q else best) b)) = true := by
  intro xs
  induction xs with
  | nil =>
    intro b
    exact ⟨[], [], rfl, fun q h => absurd h (List.not_mem_nil q)⟩
  | cons y rest ih =>
    intro b
    simp only [List.foldl_cons]
    by_cases hby : lexLt (k b) (k y) = true
    · rw [if_pos hby]
      obtain ⟨l1, l2, hdec, hlt⟩ := ih y
      refine ⟨b :: l1, l2, ?_, ?_⟩
      · rw [List.cons_append, ← hdec]
      · intro q hq
        rcases List.mem_cons.mp hq with rfl | hq2
        · have hry := (foldl_max_aux k rest y).2.1
          rw [lexLt_iff] at hby ⊢
          rw [← Bool.not_eq_true, lexLt_iff] at hry
          omega
        · exact hlt q hq2
    · rw [if_neg hby]
      obtain ⟨l1, l2, hdec, hlt⟩ := ih b
      generalize hfold :
        rest.foldl (fun best q => if lexLt (k best) (k q) then q else best) b = r
        at hdec hlt ⊢
      cases l1 with
      | nil =>
        rw [List.nil_append] at hdec
        injection hdec with h1 h2
        refine ⟨[], y :: rest, ?_, fun q h => absurd h (List.not_mem_nil q)⟩
        rw [List.nil_append, ← h1]
      | cons x' l1' =>
        rw [List.cons_append] at hdec
        injection hdec with h1 h2
        subst h1
        refine ⟨b :: y :: l1', l2, ?_, ?_⟩
        · rw [h2]
          simp [List.cons_append]
        · have hbr : lexLt (k b) (k r) = true :=
            hlt b (List.mem_cons_self _ _)
          intro q hq
          rcases List.mem_cons.mp hq with rfl | hq2
          · exact hbr
          rcases List.mem_cons.mp hq2 with rfl | hq3
          · have hby' : lexLt (k b) (k q) = false := by
              cases hv : lexLt (k b) (k q)
              · rfl
              · exact absurd hv hby
            rw [lexLt_iff] at hbr ⊢
            rw [← Bool.not_eq_true, lexLt_iff] at hby'
            omega
          · exact hlt q (List.mem_cons_of_mem _ hq3)

/-- First-attainment of the fold implementing Python `min(..., key=k)`:
every element strictly before the result in `seed :: list` order is
strictly above it, so among tied minima the earliest wins. -/
lemma foldl_min_first (k : RemoveOnePlayer → Int × Int × Int) :
    ∀ (xs : List RemoveOnePlayer) (b : RemoveOnePlayer),
      ∃ l1 l2,
        b :: xs = l1 ++
          (xs.foldl (fun best q => if lexLt (k q) (k best) then q else best) b) :: l2 ∧
        ∀ q ∈ l1,
          lexLt (k (xs.foldl (fun best q => if lexLt (k q) (k best) then q else best) b))
            (k q) = true := by
  intro xs
  induction xs with
  | nil =>
    intro b
    exact ⟨[], [], rfl, fun q h => absurd h (List.not_mem_nil q)⟩
  | cons y rest ih =>
    intro b
    simp only [List.foldl_cons]
    by_cases hyb : lexLt (k y) (k b) = true
    · rw [if_pos hyb]
      obtain ⟨l1, l2, hdec, hlt⟩ := ih y
      refine ⟨b :: l1, l2, ?_, ?_⟩
      · rw [List.cons_append, ← hdec]
      · intro q hq
        rcases List.mem_cons.mp hq with rfl | hq2
        · have hyr := (foldl_min_aux k rest y).2.1
          rw [lexLt_iff] at hyb ⊢
          rw [← Bool.not_eq_true, lexLt_iff] at hyr
          omega
        · exact hlt q hq2
    · rw [if_neg hyb]
      obtain ⟨l1, l2, hdec, hlt⟩ := ih b
      generalize hfold :
        rest.foldl (fun best q => if lexLt (k q) (k best) then q else best) b = r
        at hdec hlt ⊢
      cases l1 with
      | nil =>
        rw [List.nil_append] at hdec
        injection hdec with h1 h2
        refine ⟨[], y :: rest, ?_, fun q h => absurd h (List.not_mem_nil q)⟩
        rw [List.nil_append, ← h1]
      | cons x' l1' =>
        rw [List.cons_append] at hdec
        injection hdec with h1 h2
        subst h1
        refine ⟨b :: y :: l1', l2, ?_, ?_⟩
        · rw [h2]
          simp [List.cons_append]
        · have hbr : lexLt (k r) (k b) = true :=
            hlt b (List.mem_cons_self _ _)
          intro q hq
          rcases List.mem_cons.mp hq with rfl | hq2
          · exact hbr
          rcases List.mem_cons.mp hq2 with rfl | hq3
          · have hyb' : lexLt (k q) (k b) = false := by
              cases hv : lexLt (k q) (k b)
              · rfl
              · exact absurd hv hyb
            rw [lexLt_iff] at hbr ⊢
            rw [← Bool.not_eq_true, lexLt_iff] at hyb'
            omega
          · exact hlt q (List.mem_cons_of_mem _ hq3)

/-- Python `max(l, key=k)` semantics of `argmaxBy`: the result is a
member no element strictly exceeds. -/
lemma argmaxBy_spec (k : RemoveOnePlayer → Int × Int × Int)
    (l : List RemoveOnePlayer) (p : RemoveOnePlayer)
    (h : argmaxBy k l = some p) :
    p ∈ l ∧ ∀ q ∈ l, lexLt (k p) (k q) = false := by
  cases l with
  | nil => cases h
  | cons x xs =>
    simp only [argmaxBy] at h
    injection h with h
    subst h
    obtain ⟨hmem, hb, hall⟩ := foldl_max_aux k xs x
    constructor
    · rcases hmem with h | h
      · rw [h]; exact List.mem_cons_self x xs
      · exact List.mem_cons_of_mem _ h
    · intro q hq
      rcases List.mem_cons.mp hq with rfl | hq2
      · exact hb
      · exact hall q hq2

/-- Python `min(l, key=k)` semantics of `argminBy`: the result is a
member below which no element falls. -/
lemma argminBy_spec (k : RemoveOnePlayer → Int × Int × Int)
    (l : List RemoveOnePlayer) (p : RemoveOnePlayer)
    (h : argminBy k l = some p) :
    p ∈ l ∧ ∀ q ∈ l, lexLt (k q) (k p) = false := by
  cases l with
  | nil => cases h
  | cons x xs =>
    simp only [argminBy] at h
    injection h with h
    subst h
    obtain ⟨hmem, hb, hall⟩ := foldl_min_aux k xs x
    constructor
    · rcases hmem with h | h
      · rw [h]; exact List.mem_cons_self x xs
      · exact List.mem_cons_of_mem _ h
    · intro q hq
      rcases List.mem_cons.mp hq with rfl | hq2
      · exact hb
      · exact hall q hq2

/-- Python `max(l, key=k)` ties: `argmaxBy` picks the first element
attaining the maximum — everything strictly before the result in `l` is
strictly below it. -/
lemma argmaxBy_first_spec (k : RemoveOnePlayer → Int × Int × Int)
    (l : List RemoveOnePlayer) (p : RemoveOnePlayer)
    (h : argmaxBy k l = some p) :
    ∃ l1 l2, l = l1 ++ p :: l2 ∧ ∀ q ∈ l1, lexLt (k q) (k p) = true := by
  cases l with
  | nil => cases h
  | cons x xs =>
    simp only [argmaxBy] at h
    injection h with h
    subst h
    exact foldl_max_first k xs x

/-- Python `min(l, key=k)` ties: `argminBy` picks the first element
attaining the minimum — everything strictly before the result in `l` is
strictly above it. -/
lemma argminBy_first_spec (k : RemoveOnePlayer → Int × Int × Int)
    (l : List RemoveOnePlayer) (p : RemoveOnePlayer)
    (h : argminBy k l = some p) :
    ∃ l1 l2, l = l1 ++ p :: l2 ∧ ∀ q ∈ l1, lexLt (k p) (k q) = true := by
  cases l with
  | nil => cases h
  | cons x xs =>
    simp only [argminBy] at h
    injection h with h
    subst h
    exact foldl_min_first k xs x

/-- Under the position-is-id well-formedness invariant, a member is found
at the index its `player_id` names. -/
lemma get?_of_mem_wf {ps : List RemoveOnePlayer}
    (hwf : ∀ i p, ps.get? i = some p → p.player_id = i)
    {p : RemoveOnePlayer} (hp : p ∈ ps) :
    ps.get? p.player_id = some p := by
  obtain ⟨n, hn⟩ := List.get?_of_mem hp
  rw [hwf n p hn]
  exact hn

/-- Setting a non-eliminated player's slot to an eliminated copy grows the
eliminated count by exactly one. -/
lemma countElim_set :
    ∀ (l : List RemoveOnePlayer) (i : Nat) (p q : RemoveOnePlayer),
      l.get? i = some p → p.eliminated = false → q.eliminated = true →
      ((l.set i q).filter (fun r => r.eliminated)).length =
        (l.filter (fun r => r.eliminated)).length + 1 := by
  intro l
  induction l with
  | nil => intro i p q h _ _; cases h
  | cons a l ih =>
    intro i p q hget hp hq
    cases i with
    | zero =>
      rw [List.get?_cons_zero] at hget
      injection hget with hget
      subst hget
      rw [List.set_cons_zero]
      simp [List.filter_cons, hp, hq]
    | succ i =>
      rw [List.get?_cons_succ] at hget
      rw [List.set_cons_succ]
      simp only [List.filter_cons]
      split
      · simp only [List.length_cons, ih i p q hget hp hq]
      · exact ih i p q hget hp hq

/-- Claim C6 (amended): the "final advancement round" special case is
keyed to the hardcoded round 18, not to the last element of the
configured advancement-round list. On a completed round other than 18,
whenever more than one active player remains, exactly the active player
with the highest `(score, victory_tokens, last_victory_round)` tuple is
eliminated — the decomposition conjunct pins the eliminated player down
uniquely as the first maximal one, matching Python `max` on ties; on
round 18, iff exactly 3 active players remain, exactly the active player
with the lowest `(score, victory_tokens, -last_victory_round)` tuple is
eliminated (first minimal one, matching Python `min`); in every other
case elimination is a no-op, and at most one player is eliminated per
call. -/
theorem handle_elimination_policy (s : RemoveOneState)
    (hwf : ∀ i p, s.players.get? i = some p → p.player_id = i) :
    (s.round_num ≠ 18 → 1 < activeCount s →
      ∃ p, p ∈ s.players.filter (fun q => !q.eliminated) ∧
        (∀ q ∈ s.players.filter (fun q => !q.eliminated),
          lexLt (elimKeyMax p) (elimKeyMax q) = false) ∧
        (∃ l1 l2, s.players.filter (fun q => !q.eliminated) = l1 ++ p :: l2 ∧
          ∀ q ∈ l1, lexLt (elimKeyMax q) (elimKeyMax p) = true) ∧
        handle_elimination s =
          some { s with players := s.players.set p.player_id { p with eliminated := true } } ∧
        ((s.players.set p.player_id { p with eliminated := true }).filter
            (fun q => q.eliminated)).length =
          (s.players.filter (fun q => q.eliminated)).length + 1) ∧
    (s.round_num ≠ 18 → activeCount s ≤ 1 → handle_elimination s = some s) ∧
    (s.round_num = 18 → activeCount s = 3 →
      ∃ p, p ∈ s.players.filter (fun q => !q.eliminated) ∧
        (∀ q ∈ s.players.filter (fun q => !q.eliminated),
          lexLt (elimKeyMin q) (elimKeyMin p) = false) ∧
        (∃ l1 l2, s.players.filter (fun q => !q.eliminated) = l1 ++ p :: l2 ∧
          ∀ q ∈ l1, lexLt (elimKeyMin p) (elimKeyMin q) = true) ∧
        handle_elimination s =
          some { s with players := s.players.set p.player_id { p with eliminated := true } } ∧
        ((s.players.set p.player_id { p with eliminated := true }).filter
            (fun q => q.eliminated)).length =
          (s.players.filter (fun q => q.eliminated)).length + 1) ∧
    (s.round_num = 18 → activeCount s ≠ 3 → handle_elimination s = some s) := by
  refine ⟨?_, ?_, ?_, ?_⟩
  · intro h18 hcnt
    have hb18 : ¬ ((s.round_num == 18) = true) := by simpa using h18
    unfold activeCount at hcnt
    cases hact : s.players.filter (fun p => !p.eliminated) with
    | nil => rw [hact] at hcnt; simp at hcnt
    | cons a as =>
      obtain ⟨r, hr⟩ : ∃ r, argmaxBy elimKeyMax (a :: as) = some r := ⟨_, rfl⟩
      obtain ⟨hrmem, hrmax⟩ := argmaxBy_spec _ _ _ hr
      have hrp : r ∈ s.players := by
        have : r ∈ s.players.filter (fun p => !p.eliminated) := by
          rw [hact]; exact hrmem
        exact List.mem_of_mem_filter this
      have hrelim : r.eliminated = false := by
        have hmf : r ∈ s.players.filter (fun p => !p.eliminated) := by
          rw [hact]; exact hrmem
        have := (List.mem_filter.mp hmf).2
        simpa using this
      have hget : s.players.get? r.player_id = some r := get?_of_mem_wf hwf hrp
      have hlt : r.player_id < s.players.length := by
        obtain ⟨h1, _⟩ := List.get?_eq_some.mp hget
        exact h1
      refine ⟨r, hrmem, hrmax, argmaxBy_first_spec _ _ _ hr, ?_, ?_⟩
      · unfold handle_elimination
        rw [if_neg hb18, hact]
        rw [if_pos (by rw [hact] at hcnt; exact hcnt)]
        rw [hr]
        simp only [listSet?]
        rw [if_pos hlt]
      · exact countElim_set s.players r.player_id r _ hget hrelim rfl
  · intro h18 hcnt
    have hb18 : ¬ ((s.round_num == 18) = true) := by simpa using h18
    unfold activeCount at hcnt
    unfold handle_elimination
    rw [if_neg hb18, if_neg (by omega)]
  · intro h18 hcnt
    have hb18 : (s.round_num == 18) = true := by simpa using h18
    unfold activeCount at hcnt
    cases hact : s.players.filter (fun p => !p.eliminated) with
    | nil => rw [hact] at hcnt; simp at hcnt
    | cons a as =>
      obtain ⟨r, hr⟩ : ∃ r, argminBy elimKeyMin (a :: as) = some r := ⟨_, rfl⟩
      obtain ⟨hrmem, hrmin⟩ := argminBy_spec _ _ _ hr
      have hrp : r ∈ s.players := by
        have : r ∈ s.players.filter (fun p => !p.eliminated) := by
          rw [hact]; exact hrmem
        exact List.mem_of_mem_filter this
      have hrelim : r.eliminated = false := by
        have hmf : r ∈ s.players.filter (fun p => !p.eliminated) := by
          rw [hact]; exact hrmem
        have := (List.mem_filter.mp hmf).2
        simpa using this
      have hget : s.players.get? r.player_id = some r := get?_of_mem_wf hwf hrp
      have hlt : r.player_id < s.players.length := by
        obtain ⟨h1, _⟩ := List.get?_eq_some.mp hget
        exact h1
      refine ⟨r, hrmem, hrmin, argminBy_first_spec _ _ _ hr, ?_, ?_⟩
      · unfold handle_elimination
        rw [if_pos hb18, hact]
        rw [if_pos (by rw [hact] at hcnt; simpa using hcnt)]
        rw [hr]
        simp only [listSet?]
        rw [if_pos hlt]
      · exact countElim_set s.players r.player_id r _ hget hrelim rfl
  · intro h18 hcnt
    have hb18 : (s.round_num == 18) = true := by simpa using h18
    unfold activeCount at hcnt
    unfold handle_elimination
    rw [if_pos hb18, if_neg (by simpa using hcnt)]

/-- Witness for `handle_elimination_policy` at a concrete input: with a
single active player and a round other than 18, elimination is a no-op. -/
theorem handle_elimination_policy_witness :
    handle_elimination soloState = some soloState :=
  (handle_elimination_policy soloState (by
    intro i p h
    cases i with
    | zero =>
      simp only [soloState, List.get?_cons_zero, Option.some_inj] at h
      subst h
      rfl
    | succ n => simp [soloState] at h)).2.1 (by decide) (by decide)

end RemoveOne
